import Mathlib

/-! Package `is`: the optional-value container `Maybe[T]`

A shallow embedding of `is.go`.

* A Go `*Maybe[T]` is an `Option (Maybe T)`: `none` is the nil pointer and
  `some s` an allocated container whose fields are `s`.
* A method that dereferences its receiver goes through `deref`, which fails
  with `GoPanic.nilDereference` on the nil pointer, so every method returns
  `Except GoPanic _` and a statement `= .ok r` says that the call returns `r`
  without panicking.
* `json.Marshal`, `json.Unmarshal` and `fmt.Sprint` belong to the standard
  library, not to the package: they are parameters of the methods that call
  them. The encoder returns its pair `([]byte, error)`; the decoder receives
  the input and the current content of the target and returns the new content
  of the target with its `error`. A nil `error` is `none`.
* For what a method stores, the bodies are also given as programs on a memory
  (`Body`): the container behind the receiver and the state outside it, which
  the library calls may change. `body_call_eq_call` relates the two forms.
-/

namespace Is

/-- Go `[]byte`. -/
abbrev Bytes : Type := List UInt8

/-- Go `string`. -/
abbrev GoString : Type := String

/-- The zero value of a Go type (`var nothing T`). -/
class GoZero (T : Type) where
  zero : T

/-- Run-time panics of the embedded code. -/
inductive GoPanic where
  | nilDereference
  deriving DecidableEq

/-- The struct `Maybe[T]`: `val T; hasVal bool`. -/
structure Maybe (T : Type) where
  val : T
  hasVal : Bool
  deriving DecidableEq

/-- Access to the fields of `*m`: a nil pointer dereference panics. -/
def deref {T : Type} (m : Option (Maybe T)) : Except GoPanic (Maybe T) :=
  match m with
  | none => .error .nilDereference
  | some s => .ok s

/-- The bytes of `[]byte("null")`. -/
def nullLiteral : Bytes := [0x6e, 0x75, 0x6c, 0x6c]

/-- Go `func Value[T any](value T) *Maybe[T]`. -/
def Value {T : Type} (value : T) : Option (Maybe T) :=
  some { val := value, hasVal := true }

/-- Go `func Nothing[T any]() *Maybe[T]`: the field `val` is left at its zero value. -/
def Nothing {T : Type} [GoZero T] : Option (Maybe T) :=
  some { val := GoZero.zero, hasVal := false }

/-- Go `func (m *Maybe[T]) HasValue() bool`. -/
def Maybe.HasValue {T : Type} (m : Option (Maybe T)) : Except GoPanic Bool :=
  if m.isNone then
    .ok false
  else
    (deref m).bind fun s =>
      if !s.hasVal then
        .ok false
      else
        .ok true

/-- Go `func (m *Maybe[T]) Value() T`. -/
def Maybe.Value {T : Type} [GoZero T] (m : Option (Maybe T)) : Except GoPanic T :=
  let nothing : T := GoZero.zero
  if m.isNone then
    .ok nothing
  else
    (deref m).bind fun s =>
      if !s.hasVal then
        .ok nothing
      else
        .ok s.val

/-- Go `func (m *Maybe[T]) ValueOk() (T, bool)`: `return m.Value(), m.HasValue()`. -/
def Maybe.ValueOk {T : Type} [GoZero T] (m : Option (Maybe T)) : Except GoPanic (T × Bool) :=
  (Maybe.Value m).bind fun v =>
    (Maybe.HasValue m).bind fun ok =>
      .ok (v, ok)

/-- Go `func (m *Maybe[T]) MarshalJSON() ([]byte, error)`; `marshal` is `json.Marshal` at `T`. -/
def Maybe.MarshalJSON {T E : Type} (marshal : T → Bytes × Option E)
    (m : Option (Maybe T)) : Except GoPanic (Bytes × Option E) :=
  (deref m).bind fun s =>
    if !s.hasVal then
      .ok (nullLiteral, none)
    else
      .ok (marshal s.val)

/-- Go `func (m *Maybe[T]) UnmarshalJSON(b []byte) error`; `unmarshal b old` is
`json.Unmarshal(b, &m.val)` when `m.val` holds `old`: the new content of `m.val`
and the returned error. The result is the container after the call and the
returned error. -/
def Maybe.UnmarshalJSON {T E : Type} (unmarshal : Bytes → T → T × Option E)
    (m : Option (Maybe T)) (b : Bytes) : Except GoPanic (Maybe T × Option E) :=
  (deref m).bind fun s =>
    let s1 : Maybe T := { s with hasVal := true }
    let r := unmarshal b s1.val
    .ok ({ s1 with val := r.1 }, r.2)

/-- Go `func (m *Maybe[T]) String() string`; `sprint` is `fmt.Sprint` at `T`. -/
def Maybe.String {T : Type} [GoZero T] (sprint : T → GoString)
    (m : Option (Maybe T)) : Except GoPanic GoString :=
  (if m.isNone then (.ok true : Except GoPanic Bool)
   else (Maybe.HasValue m).bind fun h => .ok (!h)).bind fun empty =>
    if empty then
      .ok ""
    else
      (Maybe.Value m).bind fun v => .ok (sprint v)

/-! ## The types of `is_test.go` and the library behaviour they exercise -/

/-- Go `type testUser struct { ID string }`. -/
structure testUser where
  ID : GoString
  deriving DecidableEq

/-- Go `type testStruct struct`; `Time` stands for the library type `time.Time`. -/
structure testStruct (Time : Type) where
  Name : GoString
  Pronouns : Option (Maybe GoString)
  IsActive : Option (Maybe Bool)
  CreatedAt : Option (Maybe Time)
  User : Option (Maybe (Option testUser))
  Visits : Option (Maybe Int)

instance : GoZero GoString := ⟨""⟩
instance : GoZero Bool := ⟨false⟩
instance : GoZero Int := ⟨0⟩
instance {α : Type} : GoZero (Option α) := ⟨none⟩
instance {Time : Type} : GoZero (testStruct Time) :=
  ⟨{ Name := "", Pronouns := none, IsActive := none, CreatedAt := none, User := none,
     Visits := none }⟩

/-- What `fmt` prints for an operand that implements `Stringer`: the text its
`String` method returns, and `<nil>` when the method panics on a nil receiver. -/
def fmtStringer (r : Except GoPanic GoString) : GoString :=
  match r with
  | .ok s => s
  | .error _ => "<nil>"

/-- The library call `fmt.Sprint` at `testStruct`: the fields in order between
braces, separated by one space; a string field is printed as it is and a
`*Maybe[_]` field, which implements `Stringer`, through its `String` method.
The arguments are `fmt.Sprint` at the types held by the containers. -/
def testStruct.Sprint {Time : Type} [GoZero Time]
    (sprintString : GoString → GoString) (sprintBool : Bool → GoString)
    (sprintTime : Time → GoString) (sprintUser : Option testUser → GoString)
    (sprintInt : Int → GoString) (s : testStruct Time) : GoString :=
  "\x7b" ++ s.Name
    ++ " " ++ fmtStringer (Maybe.String sprintString s.Pronouns)
    ++ " " ++ fmtStringer (Maybe.String sprintBool s.IsActive)
    ++ " " ++ fmtStringer (Maybe.String sprintTime s.CreatedAt)
    ++ " " ++ fmtStringer (Maybe.String sprintUser s.User)
    ++ " " ++ fmtStringer (Maybe.String sprintInt s.Visits)
    ++ "\x7d"

/-- The bytes of the JSON literal `true`. -/
def trueLiteral : Bytes := [0x74, 0x72, 0x75, 0x65]

/-- The bytes of the JSON literal `false`. -/
def falseLiteral : Bytes := [0x66, 0x61, 0x6c, 0x73, 0x65]

/-- The library call `json.Marshal` at `bool`: it never fails. -/
def jsonMarshalBool (v : Bool) : Bytes × Option GoString :=
  (if v then trueLiteral else falseLiteral, none)

/-- The library call `json.Unmarshal` into a `bool`, on inputs without white
space: the two literals set the target, `null` leaves it as it is, and any other
input is rejected with the target untouched. -/
def jsonUnmarshalBool (b : Bytes) (old : Bool) : Bool × Option GoString :=
  if b = trueLiteral then (true, none)
  else if b = falseLiteral then (false, none)
  else if b = nullLiteral then (old, none)
  else (old, some "json: cannot unmarshal into Go value of type bool")

/-- Go `[]byte(s)`: the UTF-8 bytes of a string. -/
def bytesOf (s : GoString) : Bytes := s.toUTF8.data.toList

/-- The library call `json.Marshal` at `string`, for text that needs no
escaping: the text between double quotes. -/
def jsonString (s : GoString) : Bytes := bytesOf ("\"" ++ s ++ "\"")

/-- The library call `json.Marshal` at `*testUser`: a nil pointer is written as
`null`, and a user as the object of its only field `ID`. It never fails. -/
def jsonMarshalUser (u : Option testUser) : Bytes × Option GoString :=
  match u with
  | none => (nullLiteral, none)
  | some x => (bytesOf "\x7b\"ID\":" ++ jsonString x.ID ++ bytesOf "\x7d", none)

/-! ## The library encoder on a struct with container fields -/

/-- The library encoder (`encoding/json`) on one struct field of type
`*Maybe[T]`: the text written for the field, `none` when the field is left out,
and the error. With the omit-empty option a nil pointer is left out. Otherwise
the key is written, then `null` for a nil pointer, on which the encoder does not
call the method, and for an allocated container what its `MarshalJSON` returns;
an error of `MarshalJSON` ends the encoding, wrapped by `marshalerError`. -/
def encodeMaybeField {T E : Type} (marshalerError : E → E) (name : GoString)
    (omitEmpty : Bool) (marshal : T → Bytes × Option E) (m : Option (Maybe T)) :
    Except GoPanic (Option Bytes × Option E) :=
  if omitEmpty && m.isNone then
    .ok (none, none)
  else if m.isNone then
    .ok (some (jsonString name ++ bytesOf ":" ++ nullLiteral), none)
  else
    (Maybe.MarshalJSON marshal m).bind fun r =>
      match r.2 with
      | some e => .ok (none, some (marshalerError e))
      | none => .ok (some (jsonString name ++ bytesOf ":" ++ r.1), none)

/-- The fields of a struct encoded in order, up to the first error: the texts
of the fields that are written. -/
def encodeFields {E : Type} :
    List (Except GoPanic (Option Bytes × Option E)) → Except GoPanic (List Bytes × Option E)
  | [] => .ok ([], none)
  | f :: fs =>
    f.bind fun r =>
      match r.2 with
      | some e => .ok ([], some e)
      | none =>
        (encodeFields fs).bind fun rs =>
          match rs.2 with
          | some e => .ok ([], some e)
          | none => .ok (r.1.toList ++ rs.1, none)

/-- The texts of the written fields separated by commas. -/
def joinFields : List Bytes → Bytes
  | [] => []
  | [f] => f
  | f :: g :: fs => f ++ bytesOf "," ++ joinFields (g :: fs)

/-- The library call `json.Marshal` at `testStruct`, with its field options:
`Pronouns`, `CreatedAt` and `User` have the omit-empty option, `IsActive` and
`Visits` have not. `Name` is taken to need no escaping. The arguments are
`json.Marshal` at the types held by the containers. -/
def testStruct.Marshal {Time E : Type} (marshalerError : E → E)
    (marshalString : GoString → Bytes × Option E) (marshalBool : Bool → Bytes × Option E)
    (marshalTime : Time → Bytes × Option E) (marshalUser : Option testUser → Bytes × Option E)
    (marshalInt : Int → Bytes × Option E) (s : testStruct Time) :
    Except GoPanic (Bytes × Option E) :=
  (encodeFields
    [ .ok (some (jsonString "Name" ++ bytesOf ":" ++ jsonString s.Name), none),
      encodeMaybeField marshalerError "Pronouns" true marshalString s.Pronouns,
      encodeMaybeField marshalerError "IsActive" false marshalBool s.IsActive,
      encodeMaybeField marshalerError "CreatedAt" true marshalTime s.CreatedAt,
      encodeMaybeField marshalerError "User" true marshalUser s.User,
      encodeMaybeField marshalerError "Visits" false marshalInt s.Visits ]).bind fun r =>
    match r.2 with
    | some e => .ok ([], some e)
    | none => .ok (bytesOf "\x7b" ++ joinFields r.1 ++ bytesOf "\x7d", none)

/-! ## Callers of the public methods -/

/-- The public methods of `*Maybe[T]`, with the argument of the call. -/
inductive Op where
  | hasValue
  | value
  | valueOk
  | string
  | marshalJSON
  | unmarshalJSON (b : Bytes)
  deriving DecidableEq

/-- What a call of a public method hands back to its caller. -/
inductive Returned (T E : Type) where
  | hasValue (r : Bool)
  | value (r : T)
  | valueOk (r : T × Bool)
  | string (r : GoString)
  | marshalJSON (r : Bytes × Option E)
  | unmarshalJSON (r : Option E)

/-- One call of a public method on the container behind `m`: the container
behind `m` after the call, and what the call returned. The receiver is passed by
value, so `m` itself stays; `HasValue`, `Value`, `ValueOk`, `String` and
`MarshalJSON` hold no assignment, so the container is as before; `UnmarshalJSON`
assigns `m.hasVal` and lets the decoder write `m.val`. -/
def call {T E : Type} [GoZero T] (sprint : T → GoString) (marshal : T → Bytes × Option E)
    (unmarshal : Bytes → T → T × Option E) (op : Op) (m : Option (Maybe T)) :
    Except GoPanic (Option (Maybe T) × Returned T E) :=
  match op with
  | .hasValue => (Maybe.HasValue m).bind fun r => .ok (m, .hasValue r)
  | .value => (Maybe.Value m).bind fun r => .ok (m, .value r)
  | .valueOk => (Maybe.ValueOk m).bind fun r => .ok (m, .valueOk r)
  | .string => (Maybe.String sprint m).bind fun r => .ok (m, .string r)
  | .marshalJSON => (Maybe.MarshalJSON marshal m).bind fun r => .ok (m, .marshalJSON r)
  | .unmarshalJSON b =>
    (Maybe.UnmarshalJSON unmarshal m b).bind fun r => .ok (some r.1, .unmarshalJSON r.2)

/-- A finite sequence of calls on the container behind `m`, in order: the
container after the last call and what each call returned. -/
def callAll {T E : Type} [GoZero T] (sprint : T → GoString) (marshal : T → Bytes × Option E)
    (unmarshal : Bytes → T → T × Option E) :
    List Op → Option (Maybe T) → Except GoPanic (Option (Maybe T) × List (Returned T E))
  | [], m => .ok (m, [])
  | op :: ops, m =>
    (call sprint marshal unmarshal op m).bind fun r =>
      (callAll sprint marshal unmarshal ops r.1).bind fun rs =>
        .ok (rs.1, r.2 :: rs.2)

/-! ## The methods as programs on memory -/

/-- The memory a method runs on: the container behind its receiver (`none` for
a nil receiver) and the state of everything outside the container, which the
library calls may read and change. -/
structure Mem (T W : Type) where
  cell : Option (Maybe T)
  world : W

/-- A piece of a method body: it runs on the memory and returns a value with
the memory it leaves, or panics. -/
abbrev Body (T W : Type) : Type → Type := StateT (Mem T W) (Except GoPanic)

/-- Go `m == nil`. -/
def Body.receiverIsNil {T W : Type} : Body T W Bool :=
  fun μ => .ok (μ.cell.isNone, μ)

/-- Go `m.hasVal` as an expression. -/
def Body.loadHasVal {T W : Type} : Body T W Bool :=
  fun μ => (deref μ.cell).bind fun s => .ok (s.hasVal, μ)

/-- Go `m.val` as an expression. -/
def Body.loadVal {T W : Type} : Body T W T :=
  fun μ => (deref μ.cell).bind fun s => .ok (s.val, μ)

/-- Go `m.hasVal = b`. -/
def Body.storeHasVal {T W : Type} (b : Bool) : Body T W Unit :=
  fun μ => (deref μ.cell).bind fun s => .ok ((), { μ with cell := some { s with hasVal := b } })

/-- A library call whose arguments are passed by value: it may read and change
the outside state, and cannot reach the container. -/
def Body.library {T W β : Type} (f : W → β × W) : Body T W β :=
  fun μ => .ok ((f μ.world).1, { μ with world := (f μ.world).2 })

/-- Go `json.Unmarshal(b, &m.val)`: the decoder is given the field `val` by
reference, reads its content and writes the new one. -/
def Body.decodeIntoVal {T W E : Type} (unmarshal : Bytes → T → W → (T × Option E) × W)
    (b : Bytes) : Body T W (Option E) :=
  fun μ => (deref μ.cell).bind fun s =>
    .ok ((unmarshal b s.val μ.world).1.2,
      { cell := some { s with val := (unmarshal b s.val μ.world).1.1 },
        world := (unmarshal b s.val μ.world).2 })

/-- Body of `func (m *Maybe[T]) HasValue() bool`. -/
def Body.HasValue {T W : Type} : Body T W Bool := do
  if (← Body.receiverIsNil) then
    return false
  if !(← Body.loadHasVal) then
    return false
  return true

/-- Body of `func (m *Maybe[T]) Value() T`. -/
def Body.Value {T W : Type} [GoZero T] : Body T W T := do
  let nothing : T := GoZero.zero
  if (← Body.receiverIsNil) then
    return nothing
  if !(← Body.loadHasVal) then
    return nothing
  return (← Body.loadVal)

/-- Body of `func (m *Maybe[T]) ValueOk() (T, bool)`. -/
def Body.ValueOk {T W : Type} [GoZero T] : Body T W (T × Bool) := do
  let v ← Body.Value
  let ok ← Body.HasValue
  return (v, ok)

/-- Body of `func (m *Maybe[T]) MarshalJSON() ([]byte, error)`. -/
def Body.MarshalJSON {T W E : Type} (marshal : T → W → (Bytes × Option E) × W) :
    Body T W (Bytes × Option E) := do
  if !(← Body.loadHasVal) then
    return (nullLiteral, none)
  let v ← Body.loadVal
  Body.library (marshal v)

/-- Body of `func (m *Maybe[T]) UnmarshalJSON(b []byte) error`. -/
def Body.UnmarshalJSON {T W E : Type} (unmarshal : Bytes → T → W → (T × Option E) × W)
    (b : Bytes) : Body T W (Option E) := do
  Body.storeHasVal true
  Body.decodeIntoVal unmarshal b

/-- Body of `func (m *Maybe[T]) String() string`. -/
def Body.String {T W : Type} [GoZero T] (sprint : T → W → GoString × W) :
    Body T W GoString := do
  let empty ← do
    if (← Body.receiverIsNil) then
      pure true
    else
      let h ← Body.HasValue
      pure (!h)
  if empty then
    return ""
  let v ← Body.Value
  Body.library (sprint v)

/-- One call of a public method, run on the memory. -/
def Body.call {T W E : Type} [GoZero T] (sprint : T → W → GoString × W)
    (marshal : T → W → (Bytes × Option E) × W)
    (unmarshal : Bytes → T → W → (T × Option E) × W) (op : Op) : Body T W (Returned T E) :=
  match op with
  | .hasValue => do return .hasValue (← Body.HasValue)
  | .value => do return .value (← Body.Value)
  | .valueOk => do return .valueOk (← Body.ValueOk)
  | .string => do return .string (← Body.String sprint)
  | .marshalJSON => do return .marshalJSON (← Body.MarshalJSON marshal)
  | .unmarshalJSON b => do return .unmarshalJSON (← Body.UnmarshalJSON unmarshal b)

/-- A library function of its argument alone: it leaves the outside state. -/
def fromValue {α β W : Type} (f : α → β) : α → W → β × W :=
  fun a w => (f a, w)

/-- Encoder and decoder are inverse on values: every value is encoded
without error, and decoding its encoding into a zero target yields it without
error. -/
def InverseOnValues {T E : Type} [GoZero T] (marshal : T → Bytes × Option E)
    (unmarshal : Bytes → T → T × Option E) : Prop :=
  ∀ v : T, ∃ b : Bytes, marshal v = (b, none) ∧ unmarshal b GoZero.zero = (v, none)

theorem inverseOnValues_bool : InverseOnValues jsonMarshalBool jsonUnmarshalBool := by
  intro v
  cases v
  · exact ⟨falseLiteral, rfl, by decide⟩
  · exact ⟨trueLiteral, rfl, by decide⟩

/-! ## Auxiliary facts -/

theorem call_allocated {T E : Type} [GoZero T] (sprint : T → GoString)
    (marshal : T → Bytes × Option E) (unmarshal : Bytes → T → T × Option E)
    (op : Op) (s : Maybe T) :
    ∃ (s1 : Maybe T) (r : Returned T E),
      call sprint marshal unmarshal op (some s) = .ok (some s1, r) ∧
        (s1.hasVal = true ∨ s1 = s) := by
  rcases s with ⟨v, _ | _⟩ <;> cases op <;>
    first
      | exact ⟨_, _, rfl, Or.inr rfl⟩
      | exact ⟨_, _, rfl, Or.inl rfl⟩

theorem callAll_allocated {T E : Type} [GoZero T] (sprint : T → GoString)
    (marshal : T → Bytes × Option E) (unmarshal : Bytes → T → T × Option E)
    (ops : List Op) (s : Maybe T) :
    ∃ (s1 : Maybe T) (rs : List (Returned T E)),
      callAll sprint marshal unmarshal ops (some s) = .ok (some s1, rs) ∧
        (s1.hasVal = true ∨ s1 = s) := by
  induction ops generalizing s with
  | nil => exact ⟨s, [], rfl, Or.inr rfl⟩
  | cons op ops ih =>
    obtain ⟨s1, r, h1, hs1⟩ := call_allocated sprint marshal unmarshal op s
    obtain ⟨s2, rs, h2, hs2⟩ := ih s1
    refine ⟨s2, r :: rs, ?_, ?_⟩
    · simp only [callAll, h1, h2, Except.bind]
    · rcases hs2 with h | h
      · exact Or.inl h
      · rw [h]; exact hs1

theorem body_call_eq_call {T W E : Type} [GoZero T] (sprint : T → GoString)
    (marshal : T → Bytes × Option E) (unmarshal : Bytes → T → T × Option E)
    (op : Op) (m : Option (Maybe T)) (w : W) :
    Body.call (fromValue sprint) (fromValue marshal) (fun b => fromValue (unmarshal b)) op
        ⟨m, w⟩
      = (call sprint marshal unmarshal op m).bind fun p => .ok (p.2, ⟨p.1, w⟩) := by
  rcases m with _ | ⟨v, _ | _⟩ <;> cases op <;> rfl

/-! ## Construction and the read accessors -/

/-- C1: for every type `T` and every value `v` (the zero value included), the
container returned by `Value(v)` reports `HasValue() = true` and its `Value()`
returns exactly `v`. -/
theorem value_hasValue_and_value {T : Type} [GoZero T] (v : T) :
    Maybe.HasValue (Value v) = .ok true ∧ Maybe.Value (Value v) = .ok v := by
  constructor <;> rfl

/-- C2: for every type `T`, the container returned by `Nothing[T]()` reports
`HasValue() = false` and its `Value()` returns the zero value of `T`. -/
theorem nothing_hasValue_and_value {T : Type} [GoZero T] :
    Maybe.HasValue (Nothing : Option (Maybe T)) = .ok false ∧
      Maybe.Value (Nothing : Option (Maybe T)) = .ok GoZero.zero := by
  constructor <;> rfl

/-- C3: on the nil container reference the read accessors return without
panicking and answer as for an absent container: `HasValue()` is false,
`Value()` is the zero value of `T` and `String()` is the empty string, whatever
`fmt.Sprint` does at `T`. -/
theorem nil_read_accessors {T : Type} [GoZero T] (sprint : T → GoString) :
    Maybe.HasValue (none : Option (Maybe T)) = .ok false ∧
      Maybe.Value (none : Option (Maybe T)) = .ok GoZero.zero ∧
      Maybe.String sprint (none : Option (Maybe T)) = .ok "" ∧
      Maybe.HasValue (none : Option (Maybe T)) = Maybe.HasValue (Nothing : Option (Maybe T)) ∧
      Maybe.Value (none : Option (Maybe T)) = Maybe.Value (Nothing : Option (Maybe T)) ∧
      Maybe.String sprint (none : Option (Maybe T)) = Maybe.String sprint Nothing := by
  refine ⟨rfl, rfl, rfl, rfl, rfl, rfl⟩

/-- C4: for every container reference `m` (nil, absent or present), `ValueOk()`
returns exactly the pair of what `m.Value()` and `m.HasValue()` return; it is
`(v, true)` for `Value(v)` and `(zero, false)` for `Nothing()` and for nil. -/
theorem valueOk_eq_value_hasValue {T : Type} [GoZero T] :
    (∀ m : Option (Maybe T), ∃ (v : T) (ok : Bool),
        Maybe.Value m = .ok v ∧ Maybe.HasValue m = .ok ok ∧ Maybe.ValueOk m = .ok (v, ok)) ∧
      (∀ v : T, Maybe.ValueOk (Value v) = .ok (v, true)) ∧
      Maybe.ValueOk (Nothing : Option (Maybe T)) = .ok (GoZero.zero, false) ∧
      Maybe.ValueOk (none : Option (Maybe T)) = .ok (GoZero.zero, false) := by
  refine ⟨?_, fun _ => rfl, rfl, rfl⟩
  intro m
  rcases m with _ | ⟨val, _ | _⟩
  · exact ⟨GoZero.zero, false, rfl, rfl, rfl⟩
  · exact ⟨GoZero.zero, false, rfl, rfl, rfl⟩
  · exact ⟨val, true, rfl, rfl, rfl⟩

/-! ## Serialization -/

/-- C5: for every type `T`, `MarshalJSON` on the container built by
`Nothing[T]()` returns exactly the four bytes `null` and a nil error; this is so
for every encoder, also one that fails on every value, so the encoder is not
consulted. -/
theorem marshalJSON_nothing {T : Type} [GoZero T] :
    (∀ (E : Type) (marshal : T → Bytes × Option E),
        Maybe.MarshalJSON marshal (Nothing : Option (Maybe T)) = .ok (nullLiteral, none)) ∧
      nullLiteral = ['n', 'u', 'l', 'l'].map (fun c => UInt8.ofNat c.toNat) ∧
      nullLiteral.length = 4 := by
  refine ⟨fun _ _ => rfl, by decide, rfl⟩

/-- C6: for every present container holding `v`, `MarshalJSON` returns exactly
the pair that the encoder returns for `v`: its bytes, and its error as it is. -/
theorem marshalJSON_present {T E : Type} (marshal : T → Bytes × Option E) (v : T) :
    Maybe.MarshalJSON marshal (Value v) = .ok (marshal v) ∧
      Maybe.MarshalJSON marshal (some { val := v, hasVal := true }) = .ok (marshal v) := by
  constructor <;> rfl

/-- C7: for every allocated container `s` (absent or present), every decoder
and every input `b`, `UnmarshalJSON(b)` returns and the container reports
`HasValue() = true` afterwards, whatever error the decoder returned. -/
theorem unmarshalJSON_sets_hasValue {T E : Type} (unmarshal : Bytes → T → T × Option E)
    (s : Maybe T) (b : Bytes) :
    ∃ (s1 : Maybe T) (err : Option E),
      Maybe.UnmarshalJSON unmarshal (some s) b = .ok (s1, err) ∧
        Maybe.HasValue (some s1) = .ok true :=
  ⟨_, _, rfl, rfl⟩

/-- C8: for every allocated container `s` and every input `b`,
`UnmarshalJSON(b)` returns exactly the error that the decoder returns for `b`
and the held value, and `Value()` afterwards returns what the decoder stored
in the held value. -/
theorem unmarshalJSON_error_and_value {T E : Type} [GoZero T]
    (unmarshal : Bytes → T → T × Option E) (s : Maybe T) (b : Bytes) :
    ∃ s1 : Maybe T,
      Maybe.UnmarshalJSON unmarshal (some s) b = .ok (s1, (unmarshal b s.val).2) ∧
        Maybe.Value (some s1) = .ok (unmarshal b s.val).1 :=
  ⟨_, rfl, rfl⟩

/-- C9: round trip. When encoder and decoder are inverse on values, for every
present container `Value(v)`, `MarshalJSON` succeeds with some bytes `b`, and
`UnmarshalJSON(b)` on a new empty container returns no error and leaves it equal
to the original: `HasValue()` is true and `Value()` is `v`. -/
theorem marshal_unmarshal_roundtrip {T E : Type} [GoZero T]
    (marshal : T → Bytes × Option E) (unmarshal : Bytes → T → T × Option E)
    (hinv : InverseOnValues marshal unmarshal) (v : T) :
    ∃ (b : Bytes) (s1 : Maybe T),
      Maybe.MarshalJSON marshal (Value v) = .ok (b, none) ∧
        Maybe.UnmarshalJSON unmarshal Nothing b = .ok (s1, none) ∧
        Maybe.HasValue (some s1) = .ok true ∧
        Maybe.Value (some s1) = .ok v ∧
        some s1 = Value v := by
  obtain ⟨b, hm, hu⟩ := hinv v
  refine ⟨b, { val := v, hasVal := true }, ?_, ?_, rfl, rfl, rfl⟩
  · show Except.ok (marshal v) = _
    rw [hm]
  · show Except.ok (_, (unmarshal b GoZero.zero).2) = _
    rw [hu]

theorem marshal_unmarshal_roundtrip_witness :
    InverseOnValues jsonMarshalBool jsonUnmarshalBool ∧ ∃ (b : Bytes) (s1 : Maybe Bool),
      Maybe.MarshalJSON jsonMarshalBool (Value true) = .ok (b, none) ∧
        Maybe.UnmarshalJSON jsonUnmarshalBool Nothing b = .ok (s1, none) ∧
        Maybe.HasValue (some s1) = .ok true ∧
        Maybe.Value (some s1) = .ok true ∧
        some s1 = Value true :=
  ⟨inverseOnValues_bool,
    marshal_unmarshal_roundtrip jsonMarshalBool jsonUnmarshalBool inverseOnValues_bool true⟩

/-! ## Textual rendering -/

/-- C10: for every container reference `m`, `String()` returns the empty string
when `m` is nil or absent, and otherwise exactly what `fmt.Sprint` returns for
the held value; for a present `testStruct` whose only set field is `Name`
that text is `{Ernesto     }`. -/
theorem string_empty_or_sprint {T : Type} [GoZero T] (sprint : T → GoString) :
    Maybe.String sprint (none : Option (Maybe T)) = .ok "" ∧
      (∀ x : T, Maybe.String sprint (some { val := x, hasVal := false }) = .ok "") ∧
      (∀ v : T, Maybe.String sprint (some { val := v, hasVal := true }) = .ok (sprint v)) ∧
      (∀ (Time : Type) [GoZero Time]
          (sprintString : GoString → GoString) (sprintBool : Bool → GoString)
          (sprintTime : Time → GoString) (sprintUser : Option testUser → GoString)
          (sprintInt : Int → GoString),
        Maybe.String
            (testStruct.Sprint sprintString sprintBool sprintTime sprintUser sprintInt)
            (Value { Name := "Ernesto", Pronouns := none, IsActive := none,
                     CreatedAt := none, User := none, Visits := none })
          = .ok "\x7bErnesto     \x7d") := by
  refine ⟨rfl, fun _ => rfl, fun _ => rfl, ?_⟩
  intro Time _ sprintString sprintBool sprintTime sprintUser sprintInt
  have h : testStruct.Sprint sprintString sprintBool sprintTime sprintUser sprintInt
      { Name := "Ernesto", Pronouns := none, IsActive := none, CreatedAt := none,
        User := none, Visits := none } = "\x7bErnesto     \x7d" := by
    simp only [testStruct.Sprint, Maybe.String, Option.isNone_none, if_true, Except.bind,
      fmtStringer]
    decide
  exact congrArg Except.ok h

/-! ## The nil reference, overwriting and masking -/

/-- C11 (evaluation of the code at the failing input): on the nil container
reference `MarshalJSON` reads `m.hasVal` without a nil test and panics with a
nil dereference, for every encoder, whereas on `Nothing[T]()` it returns `null`
with a nil error, and `HasValue`, `Value` and `String` return on nil. -/
theorem marshalJSON_nil_panics {T E : Type} [GoZero T] (marshal : T → Bytes × Option E) :
    Maybe.MarshalJSON marshal (none : Option (Maybe T)) = .error .nilDereference ∧
      Maybe.MarshalJSON marshal (Nothing : Option (Maybe T)) = .ok (nullLiteral, none) ∧
      Maybe.MarshalJSON marshal (none : Option (Maybe T))
        ≠ Maybe.MarshalJSON marshal (Nothing : Option (Maybe T)) := by
  refine ⟨rfl, rfl, ?_⟩
  intro h
  cases h

/-- C12 (counterexample): with the decoder of `bool`, for which `null` leaves
the target as it is, `UnmarshalJSON(null)` succeeds on `Value(true)` and on
`Nothing[bool]()` and leaves them with different `Value()`: `true` and `false`. -/
theorem unmarshalJSON_null_keeps_prior_value :
    ∃ s1 t1 : Maybe Bool,
      Maybe.UnmarshalJSON jsonUnmarshalBool (Value true) nullLiteral = .ok (s1, none) ∧
        Maybe.UnmarshalJSON jsonUnmarshalBool Nothing nullLiteral = .ok (t1, none) ∧
        Maybe.Value (some s1) = .ok true ∧
        Maybe.Value (some t1) = .ok false ∧
        Maybe.Value (some s1) ≠ Maybe.Value (some t1) := by
  refine ⟨{ val := true, hasVal := true }, { val := false, hasVal := true }, rfl, rfl, rfl, rfl, ?_⟩
  intro h
  have h1 : (Except.ok true : Except GoPanic Bool) = Except.ok false := h
  cases h1

/-- C12 (amended): for every input `b` on which the result of the decoder does
not depend on the prior content of its target, and every two allocated
containers `s` and `t` of the same `T`, whatever their prior state,
`UnmarshalJSON(b)` returns on both and leaves both with the same `Value()`,
namely what the decoder produces from `b`. -/
theorem unmarshalJSON_overwrites {T E : Type} [GoZero T]
    (unmarshal : Bytes → T → T × Option E) (b : Bytes)
    (hb : ∀ old old1 : T, unmarshal b old = unmarshal b old1) (s t : Maybe T) :
    ∃ (s1 t1 : Maybe T) (err : Option E),
      Maybe.UnmarshalJSON unmarshal (some s) b = .ok (s1, err) ∧
        Maybe.UnmarshalJSON unmarshal (some t) b = .ok (t1, err) ∧
        Maybe.Value (some s1) = .ok (unmarshal b GoZero.zero).1 ∧
        Maybe.Value (some t1) = .ok (unmarshal b GoZero.zero).1 := by
  refine ⟨{ val := (unmarshal b s.val).1, hasVal := true },
    { val := (unmarshal b t.val).1, hasVal := true }, (unmarshal b s.val).2, rfl, ?_, ?_, ?_⟩
  · rw [hb s.val t.val]
    rfl
  · rw [hb s.val GoZero.zero]
    rfl
  · rw [hb t.val GoZero.zero]
    rfl

theorem unmarshalJSON_overwrites_witness :
    (∀ old old1 : Bool, jsonUnmarshalBool trueLiteral old = jsonUnmarshalBool trueLiteral old1) ∧
      ∃ (s1 t1 : Maybe Bool) (err : Option GoString),
        Maybe.UnmarshalJSON jsonUnmarshalBool (some { val := false, hasVal := true }) trueLiteral
            = .ok (s1, err) ∧
          Maybe.UnmarshalJSON jsonUnmarshalBool (some { val := false, hasVal := false })
            trueLiteral = .ok (t1, err) ∧
          Maybe.Value (some s1) = .ok (jsonUnmarshalBool trueLiteral GoZero.zero).1 ∧
          Maybe.Value (some t1) = .ok (jsonUnmarshalBool trueLiteral GoZero.zero).1 :=
  ⟨by decide,
    unmarshalJSON_overwrites jsonUnmarshalBool trueLiteral (by decide)
      { val := false, hasVal := true } { val := false, hasVal := false }⟩

/-- C13 (counterexample): `UnmarshalJSON` is a public operation that exposes
the field `val` of a container whose presence flag is false. On the container
with flag false and `val` true, `Value()` returns the zero value `false`;
after `UnmarshalJSON(null)` with the decoder of `bool`, which succeeds,
`Value()` returns the stored `true`, whereas on the container with flag false
and `val` false the same call leaves `Value()` at `false`. -/
theorem unmarshalJSON_exposes_hidden_val :
    Maybe.Value (some { val := true, hasVal := false } : Option (Maybe Bool)) = .ok false ∧
      (∃ s1 : Maybe Bool,
        Maybe.UnmarshalJSON jsonUnmarshalBool (some { val := true, hasVal := false }) nullLiteral
            = .ok (s1, none) ∧
          Maybe.Value (some s1) = .ok true ∧
          Maybe.Value (some s1) ≠ .ok GoZero.zero) ∧
      ∃ t1 : Maybe Bool,
        Maybe.UnmarshalJSON jsonUnmarshalBool (some { val := false, hasVal := false }) nullLiteral
            = .ok (t1, none) ∧
          Maybe.Value (some t1) = .ok false := by
  refine ⟨rfl, ⟨{ val := true, hasVal := true }, rfl, rfl, ?_⟩,
    ⟨{ val := false, hasVal := true }, rfl, rfl⟩⟩
  intro h
  have h1 : (Except.ok true : Except GoPanic Bool) = Except.ok false := h
  cases h1

/-- C13 (amended): masking by the read operations. For every allocated container
whose presence flag is false, whatever its field `val` contains, `HasValue()`
returns false, `Value()` returns the zero value of `T`, `ValueOk()` returns
`(zero, false)`, `String()` returns the empty string and `MarshalJSON` returns
`null` with a nil error, for every printer and encoder. -/
theorem absent_masks_val {T E : Type} [GoZero T] (sprint : T → GoString)
    (marshal : T → Bytes × Option E) (x : T) :
    Maybe.HasValue (some { val := x, hasVal := false }) = .ok false ∧
      Maybe.Value (some { val := x, hasVal := false }) = .ok GoZero.zero ∧
      Maybe.ValueOk (some { val := x, hasVal := false }) = .ok (GoZero.zero, false) ∧
      Maybe.String sprint (some { val := x, hasVal := false }) = .ok "" ∧
      Maybe.MarshalJSON marshal (some { val := x, hasVal := false }) = .ok (nullLiteral, none) :=
  ⟨rfl, rfl, rfl, rfl, rfl⟩

/-! ## Sequences of calls -/

/-- C14: run as programs on memory, on every allocated container `s` and every
outside state, with library calls that may change the outside state: `HasValue`,
`Value`, `ValueOk`, `String` and `MarshalJSON` return their result and leave the
container as it was, presence flag and held value; every call that is not an
`UnmarshalJSON` leaves it so; two calls in a row return the same result when
printer and encoder are functions of the held value; and `UnmarshalJSON` does
change a container: it makes `Nothing[T]()` present. With library calls that are
functions of their arguments, a call run on memory returns what `call` returns
and leaves the container that `call` gives. -/
theorem read_operations_pure {T W E : Type} [GoZero T] (sprint : T → W → GoString × W)
    (marshal : T → W → (Bytes × Option E) × W)
    (unmarshal : Bytes → T → W → (T × Option E) × W) (s : Maybe T) (w : W) :
    (Body.HasValue : Body T W Bool) ⟨some s, w⟩ = .ok (s.hasVal, ⟨some s, w⟩) ∧
      (Body.Value : Body T W T) ⟨some s, w⟩
        = .ok (if s.hasVal then s.val else GoZero.zero, ⟨some s, w⟩) ∧
      (Body.ValueOk : Body T W (T × Bool)) ⟨some s, w⟩
        = .ok ((if s.hasVal then s.val else GoZero.zero, s.hasVal), ⟨some s, w⟩) ∧
      Body.String sprint ⟨some s, w⟩
        = .ok (if s.hasVal then ((sprint s.val w).1, ⟨some s, (sprint s.val w).2⟩)
            else ("", ⟨some s, w⟩)) ∧
      Body.MarshalJSON marshal ⟨some s, w⟩
        = .ok (if s.hasVal then ((marshal s.val w).1, ⟨some s, (marshal s.val w).2⟩)
            else ((nullLiteral, none), ⟨some s, w⟩)) ∧
      (∀ op : Op, (∃ b, op = .unmarshalJSON b) ∨
        ∃ (r : Returned T E) (w1 : W),
          Body.call sprint marshal unmarshal op ⟨some s, w⟩ = .ok (r, ⟨some s, w1⟩)) ∧
      (∀ (f : T → GoString) (g : T → Bytes × Option E) (op : Op),
        (∃ b, op = .unmarshalJSON b) ∨
          ∃ r : Returned T E,
            (Body.call (fromValue f) (fromValue g) unmarshal op >>= fun r1 =>
              Body.call (fromValue f) (fromValue g) unmarshal op >>= fun r2 =>
                (pure (r1, r2) : Body T W (Returned T E × Returned T E))) ⟨some s, w⟩
              = .ok ((r, r), ⟨some s, w⟩)) ∧
      (∀ b : Bytes, ∃ (t : Maybe T) (err : Option E) (w1 : W),
        Body.UnmarshalJSON unmarshal b ⟨Nothing, w⟩ = .ok (err, ⟨some t, w1⟩) ∧
          t.hasVal = true ∧ some t ≠ (Nothing : Option (Maybe T))) ∧
      (∀ (f : T → GoString) (g : T → Bytes × Option E) (u : Bytes → T → T × Option E)
          (op : Op) (m : Option (Maybe T)),
        Body.call (fromValue f) (fromValue g) (fun b => fromValue (u b)) op ⟨m, w⟩
          = (call f g u op m).bind fun p => .ok (p.2, ⟨p.1, w⟩)) := by
  refine ⟨?_, ?_, ?_, ?_, ?_, ?_, ?_, ?_, fun f g u op m => body_call_eq_call f g u op m w⟩
  · rcases s with ⟨v, _ | _⟩ <;> rfl
  · rcases s with ⟨v, _ | _⟩ <;> rfl
  · rcases s with ⟨v, _ | _⟩ <;> rfl
  · rcases s with ⟨v, _ | _⟩ <;> rfl
  · rcases s with ⟨v, _ | _⟩ <;> rfl
  · intro op
    rcases s with ⟨v, _ | _⟩ <;> cases op <;>
      first
        | exact Or.inr ⟨_, _, rfl⟩
        | exact Or.inl ⟨_, rfl⟩
  · intro f g op
    rcases s with ⟨v, _ | _⟩ <;> cases op <;>
      first
        | exact Or.inr ⟨_, rfl⟩
        | exact Or.inl ⟨_, rfl⟩
  · intro b
    refine ⟨_, _, _, rfl, rfl, ?_⟩
    intro h
    have h1 := congrArg (fun o => o.map Maybe.hasVal) h
    simp [Nothing] at h1

/-- C15: for every container reference `m` with `HasValue() = true` and every
finite sequence of public calls (`UnmarshalJSON` with any input and any decoder
result included), the sequence runs to its end without a panic and `HasValue()`
is still true on the container afterwards. -/
theorem present_stays_present {T E : Type} [GoZero T] (sprint : T → GoString)
    (marshal : T → Bytes × Option E) (unmarshal : Bytes → T → T × Option E)
    (ops : List Op) (m : Option (Maybe T)) (hm : Maybe.HasValue m = .ok true) :
    ∃ (m1 : Option (Maybe T)) (rs : List (Returned T E)),
      callAll sprint marshal unmarshal ops m = .ok (m1, rs) ∧
        Maybe.HasValue m1 = .ok true := by
  rcases m with _ | ⟨v, _ | _⟩
  · cases hm
  · cases hm
  · obtain ⟨s1, rs, h, hs⟩ :=
      callAll_allocated sprint marshal unmarshal ops { val := v, hasVal := true }
    refine ⟨some s1, rs, h, ?_⟩
    have hv : s1.hasVal = true := by
      rcases hs with h1 | h1
      · exact h1
      · rw [h1]
    rcases s1 with ⟨w, _ | _⟩
    · cases hv
    · rfl

theorem present_stays_present_witness :
    Maybe.HasValue (Value true) = .ok true ∧
      ∃ (m1 : Option (Maybe Bool)) (rs : List (Returned Bool GoString)),
        callAll (fun _ => "") jsonMarshalBool jsonUnmarshalBool
            [.unmarshalJSON nullLiteral, .marshalJSON, .unmarshalJSON [], .string] (Value true)
          = .ok (m1, rs) ∧
          Maybe.HasValue m1 = .ok true :=
  ⟨rfl, present_stays_present (fun _ => "") jsonMarshalBool jsonUnmarshalBool
    [.unmarshalJSON nullLiteral, .marshalJSON, .unmarshalJSON [], .string] (Value true) rfl⟩

/-- C17: for every type `T` and every absent container `c`, `MarshalJSON(c)`
yields `null` with a nil error, and `UnmarshalJSON` of those bytes into any
allocated container `t` (`c` itself included) returns and leaves it with
`HasValue() = true`, while `c.HasValue()` is false: the round trip changes the
presence. -/
theorem absent_roundtrip_becomes_present {T E : Type} [GoZero T]
    (marshal : T → Bytes × Option E) (unmarshal : Bytes → T → T × Option E) (x : T) :
    Maybe.MarshalJSON marshal (some { val := x, hasVal := false }) = .ok (nullLiteral, none) ∧
      Maybe.MarshalJSON marshal (Nothing : Option (Maybe T)) = .ok (nullLiteral, none) ∧
      Maybe.HasValue (some { val := x, hasVal := false }) = .ok false ∧
      (∀ t : Maybe T, ∃ (t1 : Maybe T) (err : Option E),
        Maybe.UnmarshalJSON unmarshal (some t) nullLiteral = .ok (t1, err) ∧
          Maybe.HasValue (some t1) = .ok true ∧
          Maybe.HasValue (some t1) ≠ Maybe.HasValue (some { val := x, hasVal := false })) := by
  refine ⟨rfl, rfl, rfl, fun t => ⟨_, _, rfl, rfl, ?_⟩⟩
  intro h
  cases h

/-- C18: in every container state reached from `Value(v)` or `Nothing[T]()` by
a finite sequence of public calls, the sequence having run without a panic,
the presence flag is true or the stored field `val` is the zero value of `T`. -/
theorem reachable_absent_is_zero {T E : Type} [GoZero T] (sprint : T → GoString)
    (marshal : T → Bytes × Option E) (unmarshal : Bytes → T → T × Option E)
    (ops : List Op) (m : Option (Maybe T)) (hm : (∃ v : T, m = Value v) ∨ m = Nothing) :
    ∃ (s1 : Maybe T) (rs : List (Returned T E)),
      callAll sprint marshal unmarshal ops m = .ok (some s1, rs) ∧
        (s1.hasVal = true ∨ s1.val = GoZero.zero) := by
  rcases hm with ⟨v, rfl⟩ | rfl
  · obtain ⟨s1, rs, h, hs⟩ :=
      callAll_allocated sprint marshal unmarshal ops { val := v, hasVal := true }
    refine ⟨s1, rs, h, Or.inl ?_⟩
    rcases hs with h1 | h1
    · exact h1
    · rw [h1]
  · obtain ⟨s1, rs, h, hs⟩ :=
      callAll_allocated sprint marshal unmarshal ops { val := GoZero.zero, hasVal := false }
    refine ⟨s1, rs, h, ?_⟩
    rcases hs with h1 | h1
    · exact Or.inl h1
    · rw [h1]
      exact Or.inr rfl

theorem reachable_absent_is_zero_witness :
    ((∃ v : Bool, (Nothing : Option (Maybe Bool)) = Value v) ∨
        (Nothing : Option (Maybe Bool)) = Nothing) ∧
      ∃ (s1 : Maybe Bool) (rs : List (Returned Bool GoString)),
        callAll (fun _ => "") jsonMarshalBool jsonUnmarshalBool
            [.value, .marshalJSON, .string] Nothing = .ok (some s1, rs) ∧
          (s1.hasVal = true ∨ s1.val = GoZero.zero) :=
  ⟨Or.inr rfl, reachable_absent_is_zero (fun _ => "") jsonMarshalBool jsonUnmarshalBool
    [.value, .marshalJSON, .string] Nothing (Or.inr rfl)⟩

/-- C19: whenever the encoder writes the held value `v` as `null` without
error, the present container `Value(v)` and the absent container `Nothing[T]()`
give the same bytes and error under `MarshalJSON`, although `HasValue()` is
true on the first and false on the second. -/
theorem marshalJSON_hides_presence {T E : Type} [GoZero T]
    (marshal : T → Bytes × Option E) (v : T) (hv : marshal v = (nullLiteral, none)) :
    Maybe.MarshalJSON marshal (Value v) = Maybe.MarshalJSON marshal (Nothing : Option (Maybe T)) ∧
      Maybe.MarshalJSON marshal (Value v) = .ok (nullLiteral, none) ∧
      Maybe.HasValue (Value v) = .ok true ∧
      Maybe.HasValue (Nothing : Option (Maybe T)) = .ok false := by
  have h : Maybe.MarshalJSON marshal (Value v) = .ok (nullLiteral, none) := by
    show Except.ok (marshal v) = _
    rw [hv]
  exact ⟨h, h, rfl, rfl⟩

theorem marshalJSON_hides_presence_witness :
    jsonMarshalUser none = (nullLiteral, none) ∧
      Maybe.MarshalJSON jsonMarshalUser (Value (none : Option testUser))
        = Maybe.MarshalJSON jsonMarshalUser (Nothing : Option (Maybe (Option testUser))) ∧
      Maybe.MarshalJSON jsonMarshalUser (Value (none : Option testUser))
        = .ok (nullLiteral, none) ∧
      Maybe.HasValue (Value (none : Option testUser)) = .ok true ∧
      Maybe.HasValue (Nothing : Option (Maybe (Option testUser))) = .ok false :=
  ⟨rfl, marshalJSON_hides_presence jsonMarshalUser none rfl⟩

/-! ## Containers as struct fields -/

/-- C16: in the encoding of an enclosing struct, a field whose container
reference is nil is written as `null` without the omit-empty option and is left
out with it; a field holding an allocated absent container is written as
`null` with and without the option. The test value with only `Name` set
encodes to `{"Name":"Ernesto","IsActive":null,"Visits":null}`, and with
`Pronouns` allocated and absent its field is written as `null` as well. -/
theorem encode_nil_and_absent_fields {T E : Type} [GoZero T] (marshalerError : E → E)
    (name : GoString) (marshal : T → Bytes × Option E) :
    encodeMaybeField marshalerError name false marshal (none : Option (Maybe T))
        = .ok (some (jsonString name ++ bytesOf ":" ++ nullLiteral), none) ∧
      encodeMaybeField marshalerError name true marshal (none : Option (Maybe T))
        = .ok (none, none) ∧
      (∀ (omitEmpty : Bool) (x : T),
        encodeMaybeField marshalerError name omitEmpty marshal (some { val := x, hasVal := false })
          = .ok (some (jsonString name ++ bytesOf ":" ++ nullLiteral), none)) ∧
      (∀ omitEmpty : Bool,
        encodeMaybeField marshalerError name omitEmpty marshal (Nothing : Option (Maybe T))
          = .ok (some (jsonString name ++ bytesOf ":" ++ nullLiteral), none)) ∧
      (∀ (Time : Type) (marshalString : GoString → Bytes × Option E)
          (marshalBool : Bool → Bytes × Option E) (marshalTime : Time → Bytes × Option E)
          (marshalUser : Option testUser → Bytes × Option E)
          (marshalInt : Int → Bytes × Option E),
        testStruct.Marshal marshalerError marshalString marshalBool marshalTime marshalUser
            marshalInt
            { Name := "Ernesto", Pronouns := none, IsActive := none, CreatedAt := none,
              User := none, Visits := none }
          = .ok (bytesOf "\x7b\"Name\":\"Ernesto\",\"IsActive\":null,\"Visits\":null\x7d", none) ∧
        testStruct.Marshal marshalerError marshalString marshalBool marshalTime marshalUser
            marshalInt
            { Name := "Ernesto", Pronouns := Nothing, IsActive := none, CreatedAt := none,
              User := none, Visits := none }
          = .ok (bytesOf
              "\x7b\"Name\":\"Ernesto\",\"Pronouns\":null,\"IsActive\":null,\"Visits\":null\x7d",
              none)) := by
  refine ⟨rfl, rfl, ?_, ?_, ?_⟩
  · intro omitEmpty x
    cases omitEmpty <;> rfl
  · intro omitEmpty
    cases omitEmpty <;> rfl
  · intro Time marshalString marshalBool marshalTime marshalUser marshalInt
    constructor
    · have h : bytesOf "\x7b" ++ joinFields
          [jsonString "Name" ++ bytesOf ":" ++ jsonString "Ernesto",
            jsonString "IsActive" ++ bytesOf ":" ++ nullLiteral,
            jsonString "Visits" ++ bytesOf ":" ++ nullLiteral] ++ bytesOf "\x7d"
          = bytesOf "\x7b\"Name\":\"Ernesto\",\"IsActive\":null,\"Visits\":null\x7d" := by
        decide
      rw [← h]
      rfl
    · have h : bytesOf "\x7b" ++ joinFields
          [jsonString "Name" ++ bytesOf ":" ++ jsonString "Ernesto",
            jsonString "Pronouns" ++ bytesOf ":" ++ nullLiteral,
            jsonString "IsActive" ++ bytesOf ":" ++ nullLiteral,
            jsonString "Visits" ++ bytesOf ":" ++ nullLiteral] ++ bytesOf "\x7d"
          = bytesOf
              "\x7b\"Name\":\"Ernesto\",\"Pronouns\":null,\"IsActive\":null,\"Visits\":null\x7d" := by
        decide
      rw [← h]
      rfl

end Is
